import Mathlib

/-!
Shallow embedding of the remote-index discovery core of dune-istl
(src/istl/remoteindices.hh) and of the MultiTypeBlockVector infinity-norm
helper (src/dune/istl/multitypeblockvector.hh), together with theorems
checking the natural-language specification against the code.

Machine integers are modelled as `Nat`/`Int` (the global index type `TG` is
instantiated with `Int`, attributes and the `char` fields with `Nat` byte
values).  MPI communication is modelled by explicit message values; the
position cursor of `MPI_Pack`/`MPI_Unpack` is modelled by counting how many
header integers and index-pair records have been packed or unpacked.
-/

/-- Modelled from the spec: the state of a local index (`LocalIndexState`
comes from `dune/istl/indexset.hh`, which is not among the sources; spec
section 3 gives the two states `VALID` and `DELETED`). -/
inductive LocalIndexState where
  | VALID : LocalIndexState
  | DELETED : LocalIndexState
  deriving DecidableEq, Repr

/-- Embedding of `Dune::ParallelLocalIndex` (src/istl/remoteindices.hh:120-137):
a local index (`uint32`), an attribute stored as a `char` byte, a publicity
flag and a state byte. -/
structure ParallelLocalIndex where
  localIndex_ : Nat
  attribute_ : Nat
  public_ : Bool
  state_ : LocalIndexState
  deriving DecidableEq, Repr

/-- Default construction of `ParallelLocalIndex`
(src/istl/remoteindices.hh:414-418): local index 0, default attribute,
not public, state `VALID`. -/
def ParallelLocalIndex.default : ParallelLocalIndex :=
  ⟨0, 0, false, LocalIndexState.VALID⟩

/-- Modelled from the spec: `Dune::IndexPair` lives in `dune/istl/indexset.hh`
(not among the sources); spec section 3 gives it as `(global: G, tag:
LocalTag)`, matching the field accesses `global_` and `local_` in
src/istl/remoteindices.hh:515-516. -/
structure IndexPair where
  global_ : Int
  local_ : ParallelLocalIndex
  deriving DecidableEq, Repr

/-- Embedding of `Dune::RemoteIndex` (src/istl/remoteindices.hh:217-233): the
attribute of the index on the remote process plus the corresponding local
index pair (the C++ stores a pointer to the pair; the embedding stores the
pair value). -/
structure RemoteIndex where
  attribute_ : Nat
  localIndex_ : IndexPair
  deriving DecidableEq, Repr

/-- Modelled from the spec: the external `IndexSet` contract (spec sections 3
and 6) — an ascending-by-global sequence of `IndexPair` together with a
mutation sequence number (`dune/istl/indexset.hh` is not among the sources;
src/istl/remoteindices.hh only consumes `begin/end`, `size`, `noPublic` and
`seqNo`). -/
structure IndexSet where
  pairs : List IndexPair
  seqNo : Int
  deriving DecidableEq, Repr

/-- Modelled from the spec: `IndexSet::size()` — the number of pairs. -/
def IndexSet.size (s : IndexSet) : Nat := s.pairs.length

/-- Modelled from the spec: `IndexSet::noPublic()` — the number of public
pairs (spec section 6: `publicCount`). -/
def IndexSet.noPublic (s : IndexSet) : Nat :=
  (s.pairs.filter (fun p => p.local_.public_)).length

/-- What one committed MPI record of type
`MPITraits<IndexPair<TG,ParallelLocalIndex<TA>>>::getType()` transports
(src/istl/remoteindices.hh:480-527): the datatype lists `MPI_LB`, the global
index, the `ParallelLocalIndex` sub-type and `MPI_UB`; the sub-type
(src/istl/remoteindices.hh:484-496) lists `MPI_LB`, the single `char`
`attribute_` field and `MPI_UB`.  Hence a record carries exactly the global
index and the attribute byte. -/
structure WireRecord where
  global_ : Int
  attribute_ : Nat
  deriving DecidableEq, Repr

/-- Packing one `IndexPair` with the committed record datatype
(`MPI_Pack` at src/istl/remoteindices.hh:578-580): only the global index and
the attribute byte of the local part appear in the encoding. -/
def encodeIndexPair (p : IndexPair) : WireRecord :=
  ⟨p.global_, p.local_.attribute_⟩

/-- Unpacking one record (`MPI_Unpack` into a default-constructed `PairType
index` at src/istl/remoteindices.hh:792-794): the global index and the
attribute byte are overwritten from the wire; the remaining fields keep the
values given by default construction (src/istl/remoteindices.hh:414-418). -/
def decodeIndexPair (r : WireRecord) : IndexPair :=
  ⟨r.global_, ⟨0, r.attribute_, false, LocalIndexState.VALID⟩⟩

/-- Embedding of the merge loop of `RemoteIndices::unpackIndices`
(src/istl/remoteindices.hh:796-823).  `cur` is the record unpacked last,
`rest` the remaining buffer content, `consumed` the number of records
unpacked so far and `remoteEntries` the announced record count.  The loop
runs while local entries remain: on equal globals it appends
`RemoteIndex(attribute of the received record, local pair)` and advances
both streams; on a smaller local global it advances only the local cursor;
on a larger local global it discards the received record; a further record
is unpacked only while `consumed < remoteEntries` (the C++ test
`(++n_in) < remoteEntries`), otherwise the loop breaks.  Unpacking past the
end of the modelled buffer content yields `none` (the C++ would read
unspecified bytes there; no theorem below exercises that branch). -/
def uMerge (locals : List IndexPair) (cur : WireRecord) (rest : List WireRecord)
    (consumed remoteEntries : Nat) : Option (List RemoteIndex × Nat) :=
  match locals with
  | [] => some ([], consumed)
  | l :: ls =>
    if l.global_ == cur.global_ then
      if consumed < remoteEntries then
        match rest with
        | r :: rs =>
          match uMerge ls r rs (consumed + 1) remoteEntries with
          | some (out, c) => some (⟨cur.attribute_, l⟩ :: out, c)
          | none => none
        | [] => none
      else
        some ([⟨cur.attribute_, l⟩], consumed)
    else if l.global_ < cur.global_ then
      uMerge ls cur rest consumed remoteEntries
    else
      if consumed < remoteEntries then
        match rest with
        | r :: rs => uMerge (l :: ls) r rs (consumed + 1) remoteEntries
        | [] => none
      else
        some ([], consumed)
  termination_by (rest.length, locals.length)

/-- Embedding of `RemoteIndices::unpackIndices`
(src/istl/remoteindices.hh:779-824): with `remoteEntries == 0` it returns at
once having consumed nothing; otherwise it unpacks a first record and runs
the merge loop.  The result is the list appended to `remote` together with
the number of records consumed (which determines the final position
cursor). -/
def unpackIndices (records : List WireRecord) (remoteEntries : Nat)
    (locals : List IndexPair) : Option (List RemoteIndex × Nat) :=
  if remoteEntries == 0 then
    some ([], 0)
  else
    match records with
    | [] => none
    | r :: rs => uMerge locals r rs 1 remoteEntries

/-- Modelled from the spec: the merge semantics of section 4.5 of the
specification, written from the spec's words for comparison with
`unpackIndices`: "equal → emit match, advance j, read next remote (if any);
remote < local → discard remote, read next remote; remote > local → advance
j.  Terminate when the remote stream is exhausted."  With the local array
exhausted no further record can match, so the remaining remote records are
discarded. -/
def specMerge (records : List WireRecord) (locals : List IndexPair) :
    List RemoteIndex :=
  match records, locals with
  | [], _ => []
  | _ :: rs, [] => specMerge rs []
  | r :: rs, l :: ls =>
    if r.global_ == l.global_ then
      ⟨r.attribute_, l⟩ :: specMerge rs ls
    else if r.global_ < l.global_ then
      specMerge rs (l :: ls)
    else
      specMerge (r :: rs) ls
  termination_by (records.length, locals.length)

/-- Embedding of `RemoteIndices::buildLocal`
(src/istl/remoteindices.hh:586-614): a two-pointer walk over the source and
destination pair sequences; on equal globals that pass the publication test
(`ignorePublic || dest public && source public`) it emits
`(source local, dest local)` and advances both; otherwise it advances the
side with the smaller global (on equal globals failing the publication test
the source side advances, exactly as in the C++ `else` chain). -/
def buildLocal (ignorePublic : Bool) :
    List IndexPair → List IndexPair → List (Nat × Nat)
  | s :: ss, d :: ds =>
    if d.global_ == s.global_ &&
        (ignorePublic || (d.local_.public_ && s.local_.public_)) then
      (s.local_.localIndex_, d.local_.localIndex_) :: buildLocal ignorePublic ss ds
    else if d.global_ < s.global_ then
      buildLocal ignorePublic (s :: ss) ds
    else
      buildLocal ignorePublic ss (d :: ds)
  | _, _ => []
  termination_by ss ds => (ss.length, ds.length)

/-- The per-rank configuration of a `RemoteIndices` object: either the source
and destination index sets are one and the same object (`&source_ == &dest_`)
or they are two objects.  This models the pointer comparison
`bool sendTwo = (&source_ != &dest_)` at src/istl/remoteindices.hh:635. -/
inductive RankConfig where
  | same (s : IndexSet) : RankConfig
  | diff (src dst : IndexSet) : RankConfig
  deriving DecidableEq, Repr

/-- The `sendTwo` flag of `RemoteIndices::buildRemote`
(src/istl/remoteindices.hh:635). -/
def RankConfig.sendTwo : RankConfig → Bool
  | .same _ => false
  | .diff _ _ => true

/-- The source index set of the configuration (`source_`). -/
def RankConfig.source : RankConfig → IndexSet
  | .same s => s
  | .diff s _ => s

/-- The destination index set of the configuration (`dest_`). -/
def RankConfig.dest : RankConfig → IndexSet
  | .same s => s
  | .diff _ d => d

/-- `sourcePublish` of `RemoteIndices::buildRemote`
(src/istl/remoteindices.hh:637): all of `source_` under `ignorePublic`,
otherwise its public count. -/
def sourcePublish (ignorePublic : Bool) (cfg : RankConfig) : Nat :=
  if ignorePublic then cfg.source.size else cfg.source.noPublic

/-- `destPublish` of `RemoteIndices::buildRemote`
(src/istl/remoteindices.hh:639-643): the destination count when two sets are
sent, and `0` otherwise ("we only need to send one set of indices"). -/
def destPublish (ignorePublic : Bool) (cfg : RankConfig) : Nat :=
  if cfg.sendTwo then
    (if ignorePublic then cfg.dest.size else cfg.dest.noPublic)
  else 0

/-- The published-pair array filled by `RemoteIndices::packEntries`
(src/istl/remoteindices.hh:560-584): the pairs of the index set that satisfy
`ignorePublic || index->local().isPublic()`, in iteration order. -/
def publishedPairs (ignorePublic : Bool) (s : IndexSet) : List IndexPair :=
  s.pairs.filter (fun p => ignorePublic || p.local_.public_)

/-- The records packed by `RemoteIndices::packEntries`
(src/istl/remoteindices.hh:560-584): one committed-datatype record per
published pair. -/
def packEntries (ignorePublic : Bool) (s : IndexSet) : List WireRecord :=
  (publishedPairs ignorePublic s).map encodeIndexPair

/-- One packed ring message as assembled at hop 1
(src/istl/remoteindices.hh:688-710): the header integers `sendTwo`,
`sourcePublish` and `destPublish`, followed by the packed records. -/
structure Message where
  twoIndexSets : Bool
  nSource : Nat
  nDest : Nat
  records : List WireRecord
  deriving DecidableEq, Repr

/-- The message a rank packs at hop 1 of the ring
(src/istl/remoteindices.hh:688-710): header, then the source records, then —
only when `sendTwo` — the destination records. -/
def initialMessage (ignorePublic : Bool) (cfg : RankConfig) : Message :=
  ⟨cfg.sendTwo, sourcePublish ignorePublic cfg, destPublish ignorePublic cfg,
    packEntries ignorePublic cfg.source ++
      (if cfg.sendTwo then packEntries ignorePublic cfg.dest else [])⟩

/-- The pair of per-peer lists built during one hop.  `aliased` models the
assignment `send = receive` of src/istl/remoteindices.hh:756 (one list
object serving as both); `separate` models the two distinct allocations of
src/istl/remoteindices.hh:743 and 752. -/
inductive PeerLists where
  | aliased (l : List RemoteIndex) : PeerLists
  | separate (send recv : List RemoteIndex) : PeerLists
  deriving DecidableEq, Repr

/-- The send list of a `PeerLists` value (for `aliased` both rôles are the
one list). -/
def PeerLists.sendList : PeerLists → List RemoteIndex
  | .aliased l => l
  | .separate s _ => s

/-- The receive list of a `PeerLists` value. -/
def PeerLists.receiveList : PeerLists → List RemoteIndex
  | .aliased l => l
  | .separate _ r => r

/-- The unpacking part of one hop of `RemoteIndices::buildRemote`
(src/istl/remoteindices.hh:726-756): decode the three header integers,
build the receive list by unpacking `noReceive` records against
`destPairs` with local-entry count `destPublish` (which is `0` whenever
`sendTwo` is false, src/istl/remoteindices.hh:746), then — when
`twoIndexSets || sendTwo` — build a separate send list by unpacking `noSend`
records against `sourcePairs` with count `sourcePublish`; otherwise the send
list is the receive list itself.  Returns the constructed lists and the
total number of records consumed (the position cursor past the header, in
records). -/
def hopUnpack (ignorePublic : Bool) (cfg : RankConfig) (msg : Message) :
    Option (PeerLists × Nat) :=
  let sourcePairs := publishedPairs ignorePublic cfg.source
  let destPairs :=
    if cfg.sendTwo then publishedPairs ignorePublic cfg.dest else sourcePairs
  match unpackIndices msg.records msg.nSource
      (destPairs.take (destPublish ignorePublic cfg)) with
  | none => none
  | some (receive, c1) =>
    if msg.twoIndexSets || cfg.sendTwo then
      match unpackIndices (msg.records.drop c1) msg.nDest
          (sourcePairs.take (sourcePublish ignorePublic cfg)) with
      | none => none
      | some (send, c2) => some (.separate send receive, c1 + c2)
    else
      some (.aliased receive, c1)

/-- The insertion decision at the end of one hop
(src/istl/remoteindices.hh:758-768): when both lists are empty they are
deleted (once if aliased) and nothing is inserted; otherwise the pair is
inserted for the peer rank. -/
def insertDecision : PeerLists → Option PeerLists
  | .aliased l => if l.isEmpty then none else some (.aliased l)
  | .separate s r =>
    if s.isEmpty && r.isEmpty then none else some (.separate s r)

/-- The contents of `remoteIndices_` after `buildRemote` in a two-process
run (src/istl/remoteindices.hh:616-777 with `procs == 2`): the single hop
processes the peer's freshly packed message (sent in full, since after hop-1
packing the position cursor covers the whole message) and inserts at most
one entry, keyed by the peer rank `(rank + procs - 1) % procs`. -/
def remoteIndicesAfter (ignorePublic : Bool) (my peer : RankConfig)
    (peerRank : Nat) : Option (List (Nat × PeerLists)) :=
  match hopUnpack ignorePublic my (initialMessage ignorePublic peer) with
  | none => none
  | some (pl, _) =>
    match insertDecision pl with
    | none => some []
    | some pl' => some [(peerRank, pl')]

/-- The mutable state of a `RemoteIndices` object
(src/istl/remoteindices.hh:305-346): the two stored sequence numbers, the
copy-local list and the per-peer remote index lists. -/
structure RemoteIndicesState where
  sourceSeqNo_ : Int
  destSeqNo_ : Int
  copyLocal_ : List (Nat × Nat)
  remoteIndices_ : List (Nat × PeerLists)
  deriving DecidableEq, Repr

/-- The constructor `RemoteIndices::RemoteIndices`
(src/istl/remoteindices.hh:552-558): both sequence numbers start at `-1`,
the containers empty. -/
def mkRemoteIndices : RemoteIndicesState :=
  ⟨-1, -1, [], []⟩

/-- Embedding of `RemoteIndices::rebuild` (src/istl/remoteindices.hh:827-834)
for a two-process run: the call to `buildLocal` is commented out in the
source, and neither `sourceSeqNo_` nor `destSeqNo_` is assigned; the body
runs only `buildRemote`, which clears and repopulates `remoteIndices_`. -/
def rebuild (ignorePublic : Bool) (my peer : RankConfig) (peerRank : Nat)
    (s : RemoteIndicesState) : Option RemoteIndicesState :=
  (remoteIndicesAfter ignorePublic my peer peerRank).map
    (fun m => { s with remoteIndices_ := m })

/-- Embedding of `RemoteIndices::isSynced` (src/istl/remoteindices.hh:836-840). -/
def isSynced (s : RemoteIndicesState) (source dest : IndexSet) : Bool :=
  s.sourceSeqNo_ == source.seqNo && s.destSeqNo_ == dest.seqNo

/-- The byte count handed to `MPI_Ssend` at the hop after a received message
was processed (src/istl/remoteindices.hh:715/722: the cursor `position` left
by the previous hop's header decode and `unpackIndices` runs): three packed
integers plus one record size per consumed record. -/
def positionAfterHop (ignorePublic : Bool) (cfg : RankConfig) (msg : Message)
    (intSize recordSize : Nat) : Option Nat :=
  (hopUnpack ignorePublic cfg msg).map
    (fun pr => 3 * intSize + pr.2 * recordSize)

/-- The full packed size of a ring message: three packed integers plus one
record size per record (src/istl/remoteindices.hh:666-677 sizes the buffer
the same way). -/
def packedSize (msg : Message) (intSize recordSize : Nat) : Nat :=
  3 * intSize + msg.records.length * recordSize

/-- Model of an IEEE-754 binary64 field value for the infinity-norm helper
of src/dune/istl/multitypeblockvector.hh (`field_type` is `double`): NaN,
positive infinity, negative infinity, or a finite value.  Finite values are
kept as exact rationals — rounding of in-range results and the signed zero
are not modelled — but overflow is: an exact result whose magnitude reaches
the round-to-nearest overflow threshold of binary64 becomes the
correspondingly signed infinity, as in the hardware. -/
inductive FVal where
  | nan : FVal
  | inf : FVal
  | ninf : FVal
  | fin (q : ℚ) : FVal
  deriving DecidableEq, Repr

/-- The smallest magnitude that rounds to infinity under binary64
round-to-nearest-even: `2^1024 - 2^970` (halfway between the largest finite
double and `2^1024`, with the tie rounding away from the finite range). -/
def overflowBound : ℚ := 2 ^ 1024 - 2 ^ 970

/-- The largest finite binary64 value, `(2^53 - 1) * 2^971 = 2^1024 - 2^971`
(`DBL_MAX`). -/
def dblMax : ℚ := 2 ^ 1024 - 2 ^ 971

/-- IEEE binary64 addition on the model: NaN propagates, opposite infinities
give NaN, an infinity absorbs finite addends, and a finite sum overflows to
the signed infinity at `overflowBound`. -/
def fadd : FVal → FVal → FVal
  | FVal.nan, _ => FVal.nan
  | _, FVal.nan => FVal.nan
  | FVal.inf, FVal.ninf => FVal.nan
  | FVal.ninf, FVal.inf => FVal.nan
  | FVal.inf, _ => FVal.inf
  | FVal.ninf, _ => FVal.ninf
  | FVal.fin _, FVal.inf => FVal.inf
  | FVal.fin _, FVal.ninf => FVal.ninf
  | FVal.fin a, FVal.fin b =>
    if overflowBound ≤ a + b then FVal.inf
    else if a + b ≤ -overflowBound then FVal.ninf
    else FVal.fin (a + b)

/-- IEEE binary64 multiplication on the model: NaN propagates, infinity
times zero is NaN, infinities multiply by sign, and a finite product
overflows to the signed infinity at `overflowBound`. -/
def fmul : FVal → FVal → FVal
  | FVal.nan, _ => FVal.nan
  | _, FVal.nan => FVal.nan
  | FVal.inf, FVal.inf => FVal.inf
  | FVal.inf, FVal.ninf => FVal.ninf
  | FVal.ninf, FVal.inf => FVal.ninf
  | FVal.ninf, FVal.ninf => FVal.inf
  | FVal.inf, FVal.fin b =>
    if b = 0 then FVal.nan else if 0 < b then FVal.inf else FVal.ninf
  | FVal.fin a, FVal.inf =>
    if a = 0 then FVal.nan else if 0 < a then FVal.inf else FVal.ninf
  | FVal.ninf, FVal.fin b =>
    if b = 0 then FVal.nan else if 0 < b then FVal.ninf else FVal.inf
  | FVal.fin a, FVal.ninf =>
    if a = 0 then FVal.nan else if 0 < a then FVal.ninf else FVal.inf
  | FVal.fin a, FVal.fin b =>
    if overflowBound ≤ a * b then FVal.inf
    else if a * b ≤ -overflowBound then FVal.ninf
    else FVal.fin (a * b)

/-- IEEE binary64 division on the model: NaN propagates, infinity over
infinity is NaN, infinity over a finite value keeps the signed infinity (the
unsigned model zero counts as `+0`), a finite value over an infinity is
zero, `0 / 0` is NaN, a nonzero finite value over zero is the signed
infinity, and a finite quotient overflows at `overflowBound`. -/
def fdiv : FVal → FVal → FVal
  | FVal.nan, _ => FVal.nan
  | _, FVal.nan => FVal.nan
  | FVal.inf, FVal.inf => FVal.nan
  | FVal.inf, FVal.ninf => FVal.nan
  | FVal.ninf, FVal.inf => FVal.nan
  | FVal.ninf, FVal.ninf => FVal.nan
  | FVal.inf, FVal.fin b => if 0 ≤ b then FVal.inf else FVal.ninf
  | FVal.ninf, FVal.fin b => if 0 ≤ b then FVal.ninf else FVal.inf
  | FVal.fin _, FVal.inf => FVal.fin 0
  | FVal.fin _, FVal.ninf => FVal.fin 0
  | FVal.fin a, FVal.fin b =>
    if b = 0 then
      (if a = 0 then FVal.nan else if 0 < a then FVal.inf else FVal.ninf)
    else if overflowBound ≤ a / b then FVal.inf
    else if a / b ≤ -overflowBound then FVal.ninf
    else FVal.fin (a / b)

/-- The IEEE `<` comparison on the model: any comparison involving NaN is
false, negative infinity is below everything else, positive infinity is
below nothing, and finite values compare as rationals. -/
def fltLt : FVal → FVal → Bool
  | FVal.nan, _ => false
  | _, FVal.nan => false
  | FVal.ninf, FVal.ninf => false
  | FVal.ninf, _ => true
  | FVal.inf, _ => false
  | FVal.fin _, FVal.inf => true
  | FVal.fin _, FVal.ninf => false
  | FVal.fin a, FVal.fin b => decide (a < b)

/-- `std::max(a, b)`, which is `(a < b) ? b : a` with the IEEE comparison:
any comparison involving NaN is false, so `max(NaN, x) = NaN` but
`max(x, NaN) = x`.  This is the `max` used at
src/dune/istl/multitypeblockvector.hh:88. -/
def stdMax (a b : FVal) : FVal :=
  if fltLt a b then b else a

/-- Embedding of `MultiTypeBlockVector_InfinityNorm<count,T,true>::resultHelper`
(src/dune/istl/multitypeblockvector.hh:83-89) together with its recursion
end (src/dune/istl/multitypeblockvector.hh:118-121): over the list of the
blocks' infinity norms it returns the pair of the running `std::max`
(seeded with `0.0`) and the running sum (seeded with `1.0`). -/
def resultHelper : List FVal → FVal × FVal
  | [] => (FVal.fin 0, FVal.fin 1)
  | n :: rest =>
    let r := resultHelper rest
    (stdMax n r.1, fadd n r.2)

/-- Embedding of `MultiTypeBlockVector_InfinityNorm<count,T,true>::result`
(src/dune/istl/multitypeblockvector.hh:76-80) as called by
`MultiTypeBlockVector::infinity_norm`
(src/dune/istl/multitypeblockvector.hh:303-306): for a vector with at least
one block it returns `ret.first * (ret.second / ret.second)` for the helper
pair `ret`; for the zero-block vector the recursion-end specialization
returns `0.0` directly (src/dune/istl/multitypeblockvector.hh:113-116). -/
def infinityNormHasNaN : List FVal → FVal
  | [] => FVal.fin 0
  | n :: rest =>
    let r := resultHelper (n :: rest)
    fmul r.1 (fdiv r.2 r.2)

/-- Ascending-by-global-index order of a pair sequence, the order the
IndexSet contract guarantees (spec sections 3 and 6). -/
def sortedByGlobal (l : List IndexPair) : Prop :=
  List.Chain' (· < ·) (l.map (fun p => p.global_))

/-- Strictly ascending global indices along a remote index list. -/
def sortedRemote (l : List RemoteIndex) : Prop :=
  List.Chain' (· < ·) (l.map (fun e => e.localIndex_.global_))

/-- A public index pair with the given global index, local index and
attribute byte, state `VALID`. -/
def mkPublicPair (g : Int) (li a : Nat) : IndexPair :=
  ⟨g, ⟨li, a, true, LocalIndexState.VALID⟩⟩

/-- Rank 0 of end-to-end scenario S1 of the spec (attributes: owner = 0,
border = 1): globals 10, 20, 30, all public. -/
def rank0SetS1 : IndexSet :=
  ⟨[mkPublicPair 10 0 0, mkPublicPair 20 1 0, mkPublicPair 30 2 1], 0⟩

/-- Rank 1 of end-to-end scenario S1 of the spec: globals 30, 40, 50, all
public. -/
def rank1SetS1 : IndexSet :=
  ⟨[mkPublicPair 30 0 1, mkPublicPair 40 1 0, mkPublicPair 50 2 0], 0⟩

/-- One public pair with global 10, sequence number 0. -/
def aloneSet : IndexSet := ⟨[mkPublicPair 10 0 0], 0⟩

/-- An index set with no pairs. -/
def emptyIndexSet : IndexSet := ⟨[], 0⟩

/-- Two public pairs with globals 10 and 20. -/
def twoPairSet : IndexSet := ⟨[mkPublicPair 10 0 0, mkPublicPair 20 1 0], 0⟩

/-- The local rank of the mixed-configuration scenario: one public pair
with global 10, used where the local rank has `source_ == dest_`. -/
def c9MySet : IndexSet := ⟨[mkPublicPair 10 0 0], 0⟩

/-- Source set of the peer in the mixed-configuration scenario: one public
pair with global 99. -/
def c9PeerSrc : IndexSet := ⟨[mkPublicPair 99 0 0], 0⟩

/-- Destination set of the peer in the mixed-configuration scenario: one
public pair with global 10, attribute 1. -/
def c9PeerDst : IndexSet := ⟨[mkPublicPair 10 0 1], 0⟩

/-- Source set for the copy-local scenario: a public pair with global 5. -/
def c3SrcSet : IndexSet := ⟨[mkPublicPair 5 0 0], 0⟩

/-- Destination set for the copy-local scenario: a distinct set also holding
a public pair with global 5. -/
def c3DstSet : IndexSet := ⟨[mkPublicPair 5 0 1], 1⟩
theorem specMerge_nil_locals (records : List WireRecord) :
    specMerge records [] = [] := by
  induction records with
  | nil => simp [specMerge]
  | cons r rs ih => simpa [specMerge] using ih

theorem uMerge_spec (rest : List WireRecord) :
    ∀ (locals : List IndexPair) (cur : WireRecord) (consumed : Nat),
      (uMerge locals cur rest consumed (consumed + rest.length)).map Prod.fst =
        some (specMerge (cur :: rest) locals) := by
  induction rest with
  | nil =>
    intro locals
    induction locals with
    | nil =>
      intro cur consumed
      simp [uMerge, specMerge, specMerge_nil_locals]
    | cons l ls ihl =>
      intro cur consumed
      by_cases hEq : l.global_ = cur.global_
      · simp [uMerge, specMerge, hEq]
      · by_cases hLt : l.global_ < cur.global_
        · have h1 : ¬ cur.global_ = l.global_ := fun h => hEq h.symm
          have h2 : ¬ cur.global_ < l.global_ := by omega
          simpa [uMerge, specMerge, hEq, hLt, h1, h2] using ihl cur consumed
        · have h3 : cur.global_ < l.global_ := by
            rcases lt_trichotomy l.global_ cur.global_ with h | h | h
            · exact absurd h hLt
            · exact absurd h hEq
            · exact h
          have h1 : ¬ cur.global_ = l.global_ := by omega
          simp [uMerge, specMerge, hEq, hLt, h3, h1, specMerge_nil_locals]
  | cons r rs ihr =>
    intro locals
    induction locals with
    | nil =>
      intro cur consumed
      simp [uMerge, specMerge, specMerge_nil_locals]
    | cons l ls ihl =>
      intro cur consumed
      by_cases hEq : l.global_ = cur.global_
      · have hlen : consumed + (r :: rs).length = (consumed + 1) + rs.length := by
          simp; omega
        have ih := ihr ls r (consumed + 1)
        rcases hm : uMerge ls r rs (consumed + 1) ((consumed + 1) + rs.length) with _ | ⟨out, c⟩
        · rw [hm] at ih; simp at ih
        · rw [hm] at ih
          simp at ih
          have hlt : consumed < consumed + 1 + rs.length := by omega
          simp only [uMerge, specMerge]
          rw [hlen]
          simp [hEq, hm, ih, hlt]
      · by_cases hLt : l.global_ < cur.global_
        · have h1 : ¬ cur.global_ = l.global_ := fun h => hEq h.symm
          have h2 : ¬ cur.global_ < l.global_ := by omega
          have := ihl cur consumed
          simp only [uMerge, specMerge] at this ⊢
          simpa [hEq, hLt, h1, h2] using this
        · have h3 : cur.global_ < l.global_ := by
            rcases lt_trichotomy l.global_ cur.global_ with h | h | h
            · exact absurd h hLt
            · exact absurd h hEq
            · exact h
          have hlen : consumed + (r :: rs).length = (consumed + 1) + rs.length := by
            simp; omega
          have h1 : ¬ cur.global_ = l.global_ := by omega
          have hlt : consumed < consumed + 1 + rs.length := by omega
          have ih := ihr (l :: ls) r (consumed + 1)
          simp only [uMerge, specMerge]
          rw [hlen]
          simp [hEq, hLt, h3, h1, hlt, ih]
          rw [specMerge]
          simp

theorem uMerge_sublist (rest : List WireRecord) :
    ∀ (locals : List IndexPair) (cur : WireRecord) (consumed n : Nat)
      (out : List RemoteIndex) (c : Nat),
      uMerge locals cur rest consumed n = some (out, c) →
      List.Sublist (out.map (fun e => e.localIndex_)) locals := by
  induction rest with
  | nil =>
    intro locals
    induction locals with
    | nil =>
      intro cur consumed n out c h
      simp [uMerge] at h
      obtain ⟨h1, h2⟩ := h
      subst h1
      simp
    | cons l ls ihl =>
      intro cur consumed n out c h
      simp only [uMerge] at h
      by_cases hEq : (l.global_ == cur.global_) = true
      · rw [if_pos hEq] at h
        by_cases hlt : consumed < n
        · rw [if_pos hlt] at h
          exact Option.noConfusion h
        · rw [if_neg hlt] at h
          simp at h
          obtain ⟨h1, h2⟩ := h
          subst h1
          simp
      · rw [if_neg hEq] at h
        by_cases hLt : l.global_ < cur.global_
        · rw [if_pos hLt] at h
          exact (ihl cur consumed n out c h).cons l
        · rw [if_neg hLt] at h
          by_cases hlt : consumed < n
          · rw [if_pos hlt] at h
            exact Option.noConfusion h
          · rw [if_neg hlt] at h
            simp at h
            obtain ⟨h1, h2⟩ := h
            subst h1
            simp
  | cons r rs ihr =>
    intro locals
    induction locals with
    | nil =>
      intro cur consumed n out c h
      simp [uMerge] at h
      obtain ⟨h1, h2⟩ := h
      subst h1
      simp
    | cons l ls ihl =>
      intro cur consumed n out c h
      simp only [uMerge] at h
      by_cases hEq : (l.global_ == cur.global_) = true
      · rw [if_pos hEq] at h
        by_cases hlt : consumed < n
        · rw [if_pos hlt] at h
          rcases hm : uMerge ls r rs (consumed + 1) n with _ | ⟨out', c'⟩
          · rw [hm] at h
            exact Option.noConfusion h
          · rw [hm] at h
            simp at h
            obtain ⟨h1, h2⟩ := h
            subst h1
            simpa using List.Sublist.cons₂ l (ihr ls r (consumed + 1) n out' c' hm)
        · rw [if_neg hlt] at h
          simp at h
          obtain ⟨h1, h2⟩ := h
          subst h1
          simp
      · rw [if_neg hEq] at h
        by_cases hLt : l.global_ < cur.global_
        · rw [if_pos hLt] at h
          exact (ihl cur consumed n out c h).cons l
        · rw [if_neg hLt] at h
          by_cases hlt : consumed < n
          · rw [if_pos hlt] at h
            exact ihr (l :: ls) r (consumed + 1) n out c h
          · rw [if_neg hlt] at h
            simp at h
            obtain ⟨h1, h2⟩ := h
            subst h1
            simp

theorem unpackIndices_sublist (records : List WireRecord) (n : Nat)
    (locals : List IndexPair) (out : List RemoteIndex) (c : Nat)
    (h : unpackIndices records n locals = some (out, c)) :
    List.Sublist (out.map (fun e => e.localIndex_)) locals := by
  by_cases hn : n = 0
  · simp [unpackIndices, hn] at h
    simp [h.1]
  · cases records with
    | nil => simp [unpackIndices, hn] at h
    | cons r rs =>
      simp [unpackIndices, hn] at h
      exact uMerge_sublist rs locals r 1 n out c h

theorem unpackIndices_sorted (records : List WireRecord) (n : Nat)
    (locals : List IndexPair) (out : List RemoteIndex) (c : Nat)
    (h : unpackIndices records n locals = some (out, c))
    (hs : sortedByGlobal locals) : sortedRemote out := by
  have hsub := (unpackIndices_sublist records n locals out c h).map
    (fun p => p.global_)
  rw [List.map_map] at hsub
  exact hs.sublist hsub

theorem sorted_take_published (ip : Bool) (s : IndexSet) (k : Nat)
    (hs : sortedByGlobal s.pairs) :
    sortedByGlobal ((publishedPairs ip s).take k) := by
  apply hs.sublist
  apply List.Sublist.map
  exact (List.take_sublist _ _).trans (List.filter_sublist _)

theorem fmul_nan_right (a : FVal) : fmul a FVal.nan = FVal.nan := by
  cases a <;> rfl

theorem fadd_nan_left (a : FVal) : fadd FVal.nan a = FVal.nan := by
  cases a <;> rfl

theorem fadd_nan_right (a : FVal) : fadd a FVal.nan = FVal.nan := by
  cases a <;> rfl

theorem resultHelper_snd_nan (norms : List FVal) (h : FVal.nan ∈ norms) :
    (resultHelper norms).2 = FVal.nan := by
  induction norms with
  | nil => simp at h
  | cons n rest ih =>
    rcases List.mem_cons.mp h with h1 | h2
    · rw [resultHelper, ← h1]
      exact fadd_nan_left _
    · rw [resultHelper]
      simp only [ih h2]
      exact fadd_nan_right _

theorem resultHelper_fst (qs : List ℚ) :
    (resultHelper (qs.map FVal.fin)).1 = FVal.fin (qs.foldr max 0) := by
  induction qs with
  | nil => simp [resultHelper]
  | cons q rest ih =>
    simp only [List.map_cons, resultHelper, ih]
    show stdMax (FVal.fin q) (FVal.fin (rest.foldr max 0)) = _
    simp only [stdMax, fltLt, List.foldr_cons]
    rcases lt_trichotomy q (rest.foldr max 0) with h | h | h
    · rw [if_pos (by simp [h]), max_eq_right h.le]
    · rw [if_neg (by simp [h]), max_eq_left h.ge]
    · rw [if_neg (by simp [not_lt.mpr h.le]), max_eq_left h.le]

theorem foldr_max_le_sum (qs : List ℚ) (h : ∀ q ∈ qs, 0 ≤ q) :
    qs.foldr max 0 ≤ qs.sum := by
  induction qs with
  | nil => simp
  | cons q rest ih =>
    have hq : 0 ≤ q := h q (List.mem_cons_self q rest)
    have hrest : ∀ x ∈ rest, 0 ≤ x := fun x hx => h x (List.mem_cons_of_mem q hx)
    have hsum : 0 ≤ rest.sum := List.sum_nonneg hrest
    simp only [List.foldr_cons, List.sum_cons]
    exact max_le (by linarith) (by linarith [ih hrest])

theorem resultHelper_snd_dichotomy (qs : List ℚ) (h : ∀ q ∈ qs, 0 ≤ q) :
    (resultHelper (qs.map FVal.fin)).2 = FVal.inf ∨
    ((resultHelper (qs.map FVal.fin)).2 = FVal.fin (qs.sum + 1) ∧
      qs.sum + 1 < overflowBound) := by
  induction qs with
  | nil =>
    right
    constructor
    · simp [resultHelper]
    · simp only [List.sum_nil, zero_add]
      rw [overflowBound]
      norm_num
  | cons q rest ih =>
    have hq : 0 ≤ q := h q (List.mem_cons_self q rest)
    have hrest : ∀ x ∈ rest, 0 ≤ x := fun x hx => h x (List.mem_cons_of_mem q hx)
    simp only [List.map_cons, resultHelper]
    rcases ih hrest with hinf | ⟨hfin, hlt⟩
    · left
      show fadd (FVal.fin q) (resultHelper (rest.map FVal.fin)).2 = FVal.inf
      rw [hinf]
      rfl
    · by_cases hov : overflowBound ≤ q + (rest.sum + 1)
      · left
        show fadd (FVal.fin q) (resultHelper (rest.map FVal.fin)).2 = FVal.inf
        rw [hfin]
        simp [fadd, hov]
      · right
        have hpos : (0:ℚ) < overflowBound := by rw [overflowBound]; norm_num
        have hsum : 0 ≤ rest.sum := List.sum_nonneg hrest
        constructor
        · show fadd (FVal.fin q) (resultHelper (rest.map FVal.fin)).2 = _
          rw [hfin]
          have hneg : ¬ (q + (rest.sum + 1) ≤ -overflowBound) := by linarith
          simp only [fadd, if_neg hov, if_neg hneg, List.sum_cons]
          rw [add_assoc]
        · simp only [List.sum_cons]
          have := not_le.mp hov
          linarith

theorem foldr_max_nonneg (qs : List ℚ) : 0 ≤ qs.foldr max 0 := by
  induction qs with
  | nil => simp
  | cons q rest ih => exact le_trans ih (by simp [List.foldr_cons, le_max_right])

/-- C1: the claim states that after any completed `rebuild` the stored
sequence numbers `sourceSeqNo_` and `destSeqNo_` equal `source_.seqNo()` and
`dest_.seqNo()`, so that an immediately following `isSynced()` returns true,
and that both stored numbers are `-1` before the first rebuild.  The body of
`rebuild` (src/istl/remoteindices.hh:827-834) never assigns either number:
against index sets whose sequence number is `0`, a completed rebuild leaves
both numbers at `-1` and `isSynced()` returns false.  Only the
before-the-first-rebuild part of the claim holds. -/
theorem c1_rebuild_does_not_sync :
    mkRemoteIndices.sourceSeqNo_ = -1 ∧ mkRemoteIndices.destSeqNo_ = -1 ∧
    (rebuild false (.same aloneSet) (.same twoPairSet) 1 mkRemoteIndices).map
      (fun s => (s.sourceSeqNo_, s.destSeqNo_, isSynced s aloneSet aloneSet)) =
      some (-1, -1, false) := by
  refine ⟨rfl, rfl, ?_⟩
  simp [rebuild, remoteIndicesAfter, hopUnpack, initialMessage, unpackIndices,
    uMerge, publishedPairs, packEntries, sourcePublish, destPublish,
    insertDecision, aloneSet, twoPairSet, mkPublicPair, RankConfig.sendTwo,
    RankConfig.source, RankConfig.dest, IndexSet.noPublic, IndexSet.size,
    encodeIndexPair, mkRemoteIndices, isSynced]

/-- C2: the claim expects that in scenario S1 (two processes, `source ==
destination` on both ranks, rank 0 holding public globals 10, 20, 30 and
rank 1 holding 30, 40, 50, global 30 with attribute 1 on both) each rank
ends up with exactly one peer entry holding one remote index for global 30.
The code instead passes `destPublish`, which is `0` whenever only one index
set is sent (src/istl/remoteindices.hh:639-643), as the local-entry count of
the receive-list merge (src/istl/remoteindices.hh:746), so the receive list
is always empty, the aliased send list equals it, and no entry at all is
inserted: both ranks end with an empty `remoteIndices_` map. -/
theorem c2_scenario_s1_empty :
    remoteIndicesAfter false (.same rank0SetS1) (.same rank1SetS1) 1 = some [] ∧
    remoteIndicesAfter false (.same rank1SetS1) (.same rank0SetS1) 0 = some [] := by
  constructor <;>
    simp [remoteIndicesAfter, hopUnpack, initialMessage, unpackIndices, uMerge,
      publishedPairs, packEntries, sourcePublish, destPublish, insertDecision,
      rank0SetS1, rank1SetS1, mkPublicPair, RankConfig.sendTwo, RankConfig.source,
      RankConfig.dest, IndexSet.noPublic, IndexSet.size, encodeIndexPair]

/-- C3: the claim states that after any completed `rebuild` the list
`copyLocal_` holds exactly the matching source/destination local-index pairs
under the publication filter, in ascending global order.  The call to
`buildLocal` inside `rebuild` is commented out
(src/istl/remoteindices.hh:831-833), so `copyLocal_` stays empty even when
source and destination are distinct sets sharing the public global 5, where
`buildLocal` itself (src/istl/remoteindices.hh:586-614) would produce the
pair `(0, 0)` the claim requires. -/
theorem c3_rebuild_skips_buildLocal :
    (rebuild false (.diff c3SrcSet c3DstSet) (.same emptyIndexSet) 1
        mkRemoteIndices).map (fun s => s.copyLocal_) = some [] ∧
    buildLocal false c3SrcSet.pairs c3DstSet.pairs = [(0, 0)] := by
  constructor
  · simp [rebuild, remoteIndicesAfter, hopUnpack, initialMessage, unpackIndices,
      uMerge, publishedPairs, packEntries, sourcePublish, destPublish,
      insertDecision, c3SrcSet, c3DstSet, emptyIndexSet, mkPublicPair,
      RankConfig.sendTwo, RankConfig.source, RankConfig.dest,
      IndexSet.noPublic, IndexSet.size, encodeIndexPair, mkRemoteIndices]
  · simp [buildLocal, c3SrcSet, c3DstSet, mkPublicPair]

/-- C4: the claim states that at every ring hop after the first the byte
count handed to the synchronous send equals the full packed size of the
originating message, for every possible content — including when the local
published-pair array is exhausted before the remote record stream.  Exactly
that case refutes it: a rank publishing nothing that receives a message
carrying two records consumes only the first record (the merge loop of
src/istl/remoteindices.hh:799-823 exits at once with zero local entries),
leaving the position cursor at three header integers plus one record, one
record short of the full packed size, for every positive record size. -/
theorem c4_forward_truncated (intSize recordSize : Nat) (h : 0 < recordSize) :
    positionAfterHop false (.same emptyIndexSet)
        (initialMessage false (.same twoPairSet)) intSize recordSize =
      some (3 * intSize + recordSize) ∧
    3 * intSize + recordSize <
      packedSize (initialMessage false (.same twoPairSet)) intSize recordSize := by
  constructor
  · simp [positionAfterHop, hopUnpack, initialMessage, unpackIndices, uMerge,
      publishedPairs, packEntries, sourcePublish, destPublish,
      emptyIndexSet, twoPairSet, mkPublicPair, RankConfig.sendTwo,
      RankConfig.source, RankConfig.dest, IndexSet.noPublic, IndexSet.size,
      encodeIndexPair]
  · simp [packedSize, initialMessage, packEntries, publishedPairs,
      twoPairSet, mkPublicPair, RankConfig.sendTwo, RankConfig.source,
      RankConfig.dest, encodeIndexPair]
    omega

/-- Witness for C4 at the concrete sizes 4 and 9: the send hands over
3·4 + 9 = 21 bytes while the full message is 3·4 + 2·9 = 30 bytes. -/
theorem c4_forward_truncated_witness :
    0 < 9 ∧
    (positionAfterHop false (.same emptyIndexSet)
        (initialMessage false (.same twoPairSet)) 4 9 = some (3 * 4 + 9) ∧
    3 * 4 + 9 <
      packedSize (initialMessage false (.same twoPairSet)) 4 9) :=
  ⟨by norm_num, c4_forward_truncated 4 9 (by norm_num)⟩

/-- C5: `unpackIndices` (src/istl/remoteindices.hh:779-824), run on a record
stream of exactly the announced length, emits the same remote index list as
the merge of section 4.5 of the specification: equal globals emit a
`RemoteIndex` of the received attribute and the local pair and advance both
streams, a smaller remote global is discarded, a larger one advances the
local cursor, and the merge ends with the remote stream. -/
theorem c5_unpack_matches_spec_merge (records : List WireRecord)
    (locals : List IndexPair) :
    (unpackIndices records records.length locals).map Prod.fst =
      some (specMerge records locals) := by
  cases records with
  | nil => simp [unpackIndices, specMerge]
  | cons r rs =>
    have := uMerge_spec rs locals r 1
    simpa [unpackIndices, Nat.add_comm] using this

/-- C6: for every peer entry a hop constructs, both the send list and the
receive list carry strictly increasing global indices, provided the local
index sets are strictly ascending in global index.  Every list stored into
`remoteIndices_` comes from such a hop, and the lists are sublists of the
published local arrays, which inherit the order of the index sets. -/
theorem c6_peer_lists_ascending (ip : Bool) (cfg : RankConfig) (msg : Message)
    (pl : PeerLists) (c : Nat)
    (h : hopUnpack ip cfg msg = some (pl, c))
    (hs : sortedByGlobal cfg.source.pairs)
    (hd : sortedByGlobal cfg.dest.pairs) :
    sortedRemote pl.sendList ∧ sortedRemote pl.receiveList := by
  simp only [hopUnpack] at h
  rcases h1 : unpackIndices msg.records msg.nSource
      ((if cfg.sendTwo then publishedPairs ip cfg.dest
        else publishedPairs ip cfg.source).take (destPublish ip cfg)) with _ | ⟨receive, c1⟩
  · rw [h1] at h
    exact Option.noConfusion h
  · rw [h1] at h
    dsimp only at h
    have hrecv : sortedRemote receive := by
      rcases hst : cfg.sendTwo with _ | _
      · rw [hst] at h1
        simp at h1
        exact unpackIndices_sorted _ _ _ _ _ h1 (sorted_take_published ip _ _ hs)
      · rw [hst] at h1
        simp at h1
        exact unpackIndices_sorted _ _ _ _ _ h1 (sorted_take_published ip _ _ hd)
    by_cases htwo : (msg.twoIndexSets || cfg.sendTwo) = true
    · rw [if_pos htwo] at h
      rcases h2 : unpackIndices (msg.records.drop c1) msg.nDest
          ((publishedPairs ip cfg.source).take (sourcePublish ip cfg)) with _ | ⟨send, c2⟩
      · rw [h2] at h
        exact Option.noConfusion h
      · rw [h2] at h
        simp at h
        obtain ⟨hpl, hc⟩ := h
        subst hpl
        have hsend : sortedRemote send :=
          unpackIndices_sorted _ _ _ _ _ h2 (sorted_take_published ip _ _ hs)
        exact ⟨hsend, hrecv⟩
    · rw [if_neg htwo] at h
      simp at h
      obtain ⟨hpl, hc⟩ := h
      subst hpl
      exact ⟨hrecv, hrecv⟩

/-- Witness for C6 at a concrete hop whose peer entry holds one send-list
element and an empty receive list. -/
theorem c6_peer_lists_ascending_witness :
    sortedRemote (PeerLists.separate [⟨1, mkPublicPair 10 0 0⟩] []).sendList ∧
    sortedRemote (PeerLists.separate [⟨1, mkPublicPair 10 0 0⟩] []).receiveList := by
  refine c6_peer_lists_ascending false (.same c9MySet)
    (initialMessage false (.diff c9PeerSrc c9PeerDst))
    (PeerLists.separate [⟨1, mkPublicPair 10 0 0⟩] []) 2 ?_ ?_ ?_
  · simp [hopUnpack, initialMessage, unpackIndices, uMerge,
      publishedPairs, packEntries, sourcePublish, destPublish,
      c9MySet, c9PeerSrc, c9PeerDst, mkPublicPair, RankConfig.sendTwo,
      RankConfig.source, RankConfig.dest, IndexSet.noPublic, IndexSet.size,
      encodeIndexPair]
  · simp [sortedByGlobal, c9MySet, mkPublicPair, RankConfig.source]
  · simp [sortedByGlobal, c9MySet, mkPublicPair, RankConfig.dest]

/-- C7: packing an `IndexPair` with the committed record datatype
(src/istl/remoteindices.hh:480-527) and unpacking the bytes recovers the
global index and the attribute byte exactly; the encoding does not depend on
the publicity flag or the state (two pairs agreeing on global and attribute
encode identically), and the decoded pair carries the default-constructed
publicity `false` and state `VALID` rather than the original values. -/
theorem c7_codec_roundtrip (p q : IndexPair) (hg : q.global_ = p.global_)
    (ha : q.local_.attribute_ = p.local_.attribute_) :
    (decodeIndexPair (encodeIndexPair p)).global_ = p.global_ ∧
    (decodeIndexPair (encodeIndexPair p)).local_.attribute_ =
      p.local_.attribute_ ∧
    encodeIndexPair q = encodeIndexPair p ∧
    (decodeIndexPair (encodeIndexPair p)).local_.public_ = false ∧
    (decodeIndexPair (encodeIndexPair p)).local_.state_ =
      LocalIndexState.VALID := by
  simp [decodeIndexPair, encodeIndexPair, hg, ha]

/-- Witness for C7 at a public, `DELETED` pair and a private, `VALID` pair
sharing global 5 and attribute 3. -/
theorem c7_codec_roundtrip_witness :
    ((decodeIndexPair (encodeIndexPair ⟨5, ⟨7, 3, true, LocalIndexState.DELETED⟩⟩)).global_ = 5 ∧
    (decodeIndexPair (encodeIndexPair ⟨5, ⟨7, 3, true, LocalIndexState.DELETED⟩⟩)).local_.attribute_ = 3 ∧
    encodeIndexPair ⟨5, ⟨0, 3, false, LocalIndexState.VALID⟩⟩ =
      encodeIndexPair ⟨5, ⟨7, 3, true, LocalIndexState.DELETED⟩⟩ ∧
    (decodeIndexPair (encodeIndexPair ⟨5, ⟨7, 3, true, LocalIndexState.DELETED⟩⟩)).local_.public_ = false ∧
    (decodeIndexPair (encodeIndexPair ⟨5, ⟨7, 3, true, LocalIndexState.DELETED⟩⟩)).local_.state_ =
      LocalIndexState.VALID) :=
  c7_codec_roundtrip ⟨5, ⟨7, 3, true, LocalIndexState.DELETED⟩⟩
    ⟨5, ⟨0, 3, false, LocalIndexState.VALID⟩⟩ rfl rfl

/-- C8: after a hop constructs its send and receive lists
(src/istl/remoteindices.hh:758-768), an entry keyed by the peer rank is
inserted into `remoteIndices_` exactly when not both lists are empty; a peer
with no matching indices leaves the map without an entry, as a normal
outcome. -/
theorem c8_empty_peer_not_inserted (ip : Bool) (my peer : RankConfig)
    (peerRank : Nat) (pl : PeerLists) (c : Nat)
    (h : hopUnpack ip my (initialMessage ip peer) = some (pl, c)) :
    remoteIndicesAfter ip my peer peerRank =
      some (if pl.sendList = [] ∧ pl.receiveList = [] then []
        else [(peerRank, pl)]) := by
  rw [remoteIndicesAfter, h]
  cases pl with
  | aliased l =>
    cases l with
    | nil => simp [insertDecision, PeerLists.sendList, PeerLists.receiveList]
    | cons x xs => simp [insertDecision, PeerLists.sendList, PeerLists.receiveList]
  | separate s r =>
    by_cases hs : s = []
    · by_cases hr : r = []
      · simp [insertDecision, PeerLists.sendList, PeerLists.receiveList, hs, hr]
      · simp [insertDecision, PeerLists.sendList, PeerLists.receiveList, hs, hr]
    · simp [insertDecision, PeerLists.sendList, PeerLists.receiveList, hs]

/-- Witness for C8 at a concrete hop with a nonempty send list: the entry is
inserted under the peer rank 1. -/
theorem c8_empty_peer_not_inserted_witness :
    remoteIndicesAfter false (.same c9MySet) (.diff c9PeerSrc c9PeerDst) 1 =
      some (if (PeerLists.separate [⟨1, mkPublicPair 10 0 0⟩] []).sendList = [] ∧
          (PeerLists.separate [⟨1, mkPublicPair 10 0 0⟩] []).receiveList = []
        then [] else [(1, PeerLists.separate [⟨1, mkPublicPair 10 0 0⟩] [])]) :=
  c8_empty_peer_not_inserted false (.same c9MySet) (.diff c9PeerSrc c9PeerDst) 1
    (PeerLists.separate [⟨1, mkPublicPair 10 0 0⟩] []) 2 (by
      simp [hopUnpack, initialMessage, unpackIndices, uMerge,
        publishedPairs, packEntries, sourcePublish, destPublish,
        c9MySet, c9PeerSrc, c9PeerDst, mkPublicPair, RankConfig.sendTwo,
        RankConfig.source, RankConfig.dest, IndexSet.noPublic, IndexSet.size,
        encodeIndexPair])

/-- C9 counterexample: the claim states that whenever source and destination
are the same index set, every peer entry present in `remoteIndices_` stores
one and the same list object as send list and receive list.  With the local
rank holding `source_ == dest_` and the peer announcing two index sets, the
branch at src/istl/remoteindices.hh:750-754 allocates two distinct lists,
and the resulting entry for rank 1 holds a nonempty send list next to an
empty receive list — two different lists. -/
theorem c9_aliasing_counterexample :
    (RankConfig.same c9MySet).sendTwo = false ∧
    remoteIndicesAfter false (.same c9MySet) (.diff c9PeerSrc c9PeerDst) 1 =
      some [(1, PeerLists.separate [⟨1, mkPublicPair 10 0 0⟩] [])] ∧
    (PeerLists.separate [⟨1, mkPublicPair 10 0 0⟩] []).sendList ≠
      (PeerLists.separate [⟨1, mkPublicPair 10 0 0⟩] []).receiveList := by
  refine ⟨rfl, ?_, by simp [PeerLists.sendList, PeerLists.receiveList]⟩
  simp [remoteIndicesAfter, hopUnpack, initialMessage, unpackIndices, uMerge,
    publishedPairs, packEntries, sourcePublish, destPublish, insertDecision,
    c9MySet, c9PeerSrc, c9PeerDst, mkPublicPair, RankConfig.sendTwo,
    RankConfig.source, RankConfig.dest, IndexSet.noPublic, IndexSet.size,
    encodeIndexPair]

/-- C9 amended: when source and destination are the same index set and the
received message also announces a single index set, the hop constructs the
send list and the receive list as one and the same list
(src/istl/remoteindices.hh:756); such an aliased pair is inserted only when
nonempty. -/
theorem c9_aliasing_amended (ip : Bool) (cfg : RankConfig) (msg : Message)
    (pl : PeerLists) (c : Nat)
    (hst : cfg.sendTwo = false) (hti : msg.twoIndexSets = false)
    (h : hopUnpack ip cfg msg = some (pl, c)) :
    pl = PeerLists.aliased pl.receiveList ∧ pl.sendList = pl.receiveList := by
  simp only [hopUnpack] at h
  rcases h1 : unpackIndices msg.records msg.nSource
      ((if cfg.sendTwo then publishedPairs ip cfg.dest
        else publishedPairs ip cfg.source).take (destPublish ip cfg)) with _ | ⟨receive, c1⟩
  · rw [h1] at h
    exact Option.noConfusion h
  · rw [h1] at h
    dsimp only at h
    rw [hti, hst] at h
    simp at h
    obtain ⟨hpl, hc⟩ := h
    subst hpl
    exact ⟨rfl, rfl⟩

/-- Witness for the amended C9 at a concrete symmetric hop. -/
theorem c9_aliasing_amended_witness :
    PeerLists.aliased ([] : List RemoteIndex) =
      PeerLists.aliased (PeerLists.aliased ([] : List RemoteIndex)).receiveList ∧
    (PeerLists.aliased ([] : List RemoteIndex)).sendList =
      (PeerLists.aliased ([] : List RemoteIndex)).receiveList :=
  c9_aliasing_amended false (.same aloneSet)
    (initialMessage false (.same twoPairSet))
    (PeerLists.aliased []) 1 rfl rfl (by
      simp [hopUnpack, initialMessage, unpackIndices, uMerge,
        publishedPairs, packEntries, sourcePublish, destPublish,
        aloneSet, twoPairSet, mkPublicPair, RankConfig.sendTwo,
        RankConfig.source, RankConfig.dest, IndexSet.noPublic, IndexSet.size,
        encodeIndexPair])

/-- C10 counterexample: the claim, as stated, promises the maximum `m` for
all finite non-negative block norms.  Two blocks whose infinity norms are
both the largest finite double are finite and non-negative, yet the helper
sum `1 + dblMax + dblMax` overflows to infinity, `second / second` is
`inf / inf = NaN`, and `infinity_norm` returns NaN instead of the maximum
`dblMax`. -/
theorem c10_overflow_counterexample :
    infinityNormHasNaN [FVal.fin dblMax, FVal.fin dblMax] = FVal.nan ∧
    FVal.nan ≠ FVal.fin ([dblMax, dblMax].foldr max 0) ∧
    (0 : ℚ) ≤ dblMax := by
  refine ⟨?_, by simp, by rw [dblMax]; norm_num⟩
  norm_num [infinityNormHasNaN, resultHelper, stdMax, fltLt, fadd, fmul, fdiv,
    dblMax, overflowBound]

/-- C10 amended: the infinity norm of a MultiTypeBlockVector over a
NaN-admitting field returns `m * (s / s)` where `(m, s)` is the helper pair —
`m` the running `std::max` of the block norms and `s` one plus their sum
(src/dune/istl/multitypeblockvector.hh:76-89).  Consequently the result is
NaN whenever any block norm is NaN; and for finite non-negative block norms
it equals the maximum of the block norms when the running sum `s` stays
within the finite range of the field type, while it is NaN when that sum
overflows to infinity (since `s / s = inf / inf` is NaN). -/
theorem c10_infinity_norm_nan (norms : List FVal) :
    infinityNormHasNaN norms =
      fmul (resultHelper norms).1
        (fdiv (resultHelper norms).2 (resultHelper norms).2) ∧
    (FVal.nan ∈ norms → infinityNormHasNaN norms = FVal.nan) ∧
    (∀ qs : List ℚ, norms = qs.map FVal.fin → (∀ q ∈ qs, 0 ≤ q) →
      ((resultHelper norms).2 = FVal.inf → infinityNormHasNaN norms = FVal.nan) ∧
      (∀ s : ℚ, (resultHelper norms).2 = FVal.fin s →
        infinityNormHasNaN norms = FVal.fin (qs.foldr max 0))) := by
  refine ⟨?_, ?_, ?_⟩
  · cases norms with
    | nil => norm_num [infinityNormHasNaN, resultHelper, fdiv, fmul, overflowBound]
    | cons n rest => rfl
  · intro h
    cases norms with
    | nil => simp at h
    | cons n rest =>
      rw [infinityNormHasNaN]
      have h2 := resultHelper_snd_nan (n :: rest) h
      simp only [h2, fdiv, fmul_nan_right]
  · intro qs hqs hnn
    subst hqs
    constructor
    · intro hinf
      cases qs with
      | nil => simp [resultHelper] at hinf
      | cons q rest =>
        rw [List.map_cons, infinityNormHasNaN, ← List.map_cons]
        simp only [hinf, fdiv, fmul_nan_right]
    · intro s hs
      cases qs with
      | nil => simp [infinityNormHasNaN]
      | cons q rest =>
        rcases resultHelper_snd_dichotomy (q :: rest) hnn with hinf | ⟨hfin, hlt⟩
        · rw [hinf] at hs
          exact absurd hs (by simp)
        · rw [List.map_cons, infinityNormHasNaN, ← List.map_cons]
          rw [resultHelper_fst, hfin]
          have hsumpos : (0 : ℚ) < (q :: rest).sum + 1 := by
            have := List.sum_nonneg hnn
            linarith
          have hne : (q :: rest).sum + 1 ≠ 0 := ne_of_gt hsumpos
          have hTpos : (0 : ℚ) < overflowBound := by rw [overflowBound]; norm_num
          have hT1 : ¬ (overflowBound ≤ (1 : ℚ)) := by rw [overflowBound]; norm_num
          have hT2 : ¬ ((1 : ℚ) ≤ -overflowBound) := by rw [overflowBound]; norm_num
          have hm_le : (q :: rest).foldr max 0 ≤ (q :: rest).sum :=
            foldr_max_le_sum _ hnn
          have hm_nonneg : 0 ≤ (q :: rest).foldr max 0 := foldr_max_nonneg _
          have hTm : ¬ (overflowBound ≤ (q :: rest).foldr max 0 * 1) := by
            rw [mul_one]
            linarith
          have hTm2 : ¬ ((q :: rest).foldr max 0 * 1 ≤ -overflowBound) := by
            rw [mul_one]
            linarith
          have hTm3 : ¬ (overflowBound ≤ (q :: rest).foldr max 0) := by linarith
          have hTm4 : ¬ ((q :: rest).foldr max 0 ≤ -overflowBound) := by linarith
          simp only [fdiv, if_neg hne, div_self hne, if_neg hT1, if_neg hT2,
            fmul, if_neg hTm, if_neg hTm2, mul_one, if_neg hTm3, if_neg hTm4]

/-- Witness for the amended C10: a NaN block norm yields NaN, and the finite
norms 2 and 3, whose running sum 6 stays finite, yield their maximum 3. -/
theorem c10_infinity_norm_nan_witness :
    infinityNormHasNaN [FVal.nan] = FVal.nan ∧
    infinityNormHasNaN [FVal.fin 2, FVal.fin 3] =
      FVal.fin ([2, 3].foldr max 0) :=
  ⟨(c10_infinity_norm_nan [FVal.nan]).2.1 (by simp),
    ((c10_infinity_norm_nan [FVal.fin 2, FVal.fin 3]).2.2 [2, 3] (by simp)
        (by norm_num)).2 6
      (by norm_num [resultHelper, fadd, stdMax, fltLt, overflowBound])⟩
